import Mathlib

/-!
Verification of the request-dispatch and host-resolution layer of a
serverless proxy for a vector-assistant REST API (source file
`api/pinecone-assistant.js`, the VS2 variant, which the design notes mark
as canonical).

The JavaScript source is shallowly embedded:
* JSON / JavaScript values are the inductive `Js` (with an `undefined`
  constructor, since the handler distinguishes absent fields from `null`).
* The WHATWG `URL` platform object is modelled (`parseURL` / `serializeURL`)
  for http(s)-style URLs of the shape `scheme://host/path?query#hash`
  with a plain authority; this is the only external library the core logic
  depends on.
* Network effects are deterministic oracles: an `Env` maps a request URL to
  the upstream `HttpResponse`, and the retrying dispatcher `doFetch` takes
  an attempt-indexed response stream.  Every function that performs
  network calls also returns the list of calls it made (`NetCall`), so
  claims of the form "no network call is issued" are statements about that
  trace.
* The mutable module-level host cache becomes explicit state threaded
  through `getAssistantBase` and `handler`.
-/

/-- JavaScript/JSON value.  `undefined` is kept separate from `null`
because the handler's response shaping (`out.model`, `??` defaults,
destructuring defaults) distinguishes them. -/
inductive Js where
  | null
  | undefined
  | bool (b : Bool)
  | num (n : Int)
  | str (s : String)
  | arr (xs : List Js)
  | obj (fields : List (String × Js))

mutual

def Js.beq : Js → Js → Bool
  | .null, .null => true
  | .undefined, .undefined => true
  | .bool a, .bool b => a == b
  | .num a, .num b => a == b
  | .str a, .str b => a == b
  | .arr xs, .arr ys => Js.beqArr xs ys
  | .obj xs, .obj ys => Js.beqObj xs ys
  | _, _ => false

def Js.beqArr : List Js → List Js → Bool
  | [], [] => true
  | x :: xs, y :: ys => Js.beq x y && Js.beqArr xs ys
  | _, _ => false

def Js.beqObj : List (String × Js) → List (String × Js) → Bool
  | [], [] => true
  | (k, v) :: xs, (k', v') :: ys => k == k' && Js.beq v v' && Js.beqObj xs ys
  | _, _ => false

end

mutual

theorem Js.beq_iff : ∀ a b : Js, Js.beq a b = true ↔ a = b
  | .null, b => by cases b <;> simp [Js.beq]
  | .undefined, b => by cases b <;> simp [Js.beq]
  | .bool a, b => by cases b <;> simp [Js.beq]
  | .num a, b => by cases b <;> simp [Js.beq]
  | .str a, b => by cases b <;> simp [Js.beq]
  | .arr xs, b => by
      cases b <;> simp [Js.beq]
      exact Js.beqArr_iff xs _
  | .obj xs, b => by
      cases b <;> simp [Js.beq]
      exact Js.beqObj_iff xs _

theorem Js.beqArr_iff : ∀ xs ys : List Js, Js.beqArr xs ys = true ↔ xs = ys
  | [], ys => by cases ys <;> simp [Js.beqArr]
  | x :: xs, ys => by
      cases ys with
      | nil => simp [Js.beqArr]
      | cons y ys =>
        simp [Js.beqArr, Bool.and_eq_true, Js.beq_iff x y, Js.beqArr_iff xs ys]

theorem Js.beqObj_iff :
    ∀ xs ys : List (String × Js), Js.beqObj xs ys = true ↔ xs = ys
  | [], ys => by cases ys <;> simp [Js.beqObj]
  | (k, v) :: xs, ys => by
      cases ys with
      | nil => simp [Js.beqObj]
      | cons y ys =>
        obtain ⟨k', v'⟩ := y
        simp [Js.beqObj, Bool.and_eq_true, Js.beq_iff v v', Js.beqObj_iff xs ys]

end

instance : DecidableEq Js := fun a b =>
  decidable_of_iff (Js.beq a b = true) (Js.beq_iff a b)

/-- JavaScript truthiness of a value (`if (x)`, `x ? _ : _`, `.filter(Boolean)`).
Falsy values: `undefined`, `null`, `false`, `0`, `""`. -/
def jsTruthy : Js → Bool
  | .null => false
  | .undefined => false
  | .bool b => b
  | .num n => n != 0
  | .str s => s != ""
  | .arr _ => true
  | .obj _ => true

/-- Property access `o.k` (also `o?.k` on an object): the first binding of
`k`, or `undefined` when the key is absent or the value is not an object. -/
def jsGet (v : Js) (k : String) : Js :=
  match v with
  | .obj fields =>
    match fields.lookup k with
    | some x => x
    | none => .undefined
  | _ => .undefined

/-- Destructuring with a default, `const s = o.k ?? d` style used as
`const \x7b k = d \x7d = o`: the default applies exactly when the property is
`undefined`. -/
def jsGetD (v : Js) (k : String) (d : Js) : Js :=
  match jsGet v k with
  | .undefined => d
  | x => x

/-- Nullish coalescing `a ?? b`. -/
def jsNullish (a b : Js) : Js :=
  match a with
  | .null => b
  | .undefined => b
  | x => x

/-- Array spread `[...v]` as used on the chat `context` field; the handler
only ever spreads arrays (a non-array would throw a `TypeError` upstream of
everything modelled here, so it is mapped to the empty list). -/
def jsSpreadArr : Js → List Js
  | .arr xs => xs
  | _ => []

/-- The check `Number.isFinite(x)`: only numbers pass, and the model's
numbers (JSON-originated integers) are all finite. -/
def jsIsFiniteNum : Js → Bool
  | .num _ => true
  | _ => false

/-- The platform method `s.startsWith(pre)`, modelled on character lists
so that concrete witnesses evaluate inside the kernel. -/
def jsStartsWith (s pre : String) : Bool := pre.toList.isPrefixOf s.toList

/-- String coercion used when a `Js` value is spliced into a URL
(`encodeURIComponent(fileId)` on a non-string id). -/
def jsToStr : Js → String
  | .null => "null"
  | .undefined => "undefined"
  | .bool true => "true"
  | .bool false => "false"
  | .num n => toString n
  | .str s => s
  | .arr _ => ""
  | .obj _ => "[object Object]"

/-! ## WHATWG URL model

`normalizeAssistantBase` is the only place the source uses the platform
`URL` class: it parses `host` (or `https://` ++ host), strips trailing
slashes from the pathname, appends `/assistant` when missing, serializes,
and removes one trailing slash from the serialized string.

The model below covers URLs of the shape `scheme://host/path?query#hash`
where the scheme is alphabetic, the authority is a plain host (no
userinfo), and parsing requires the `://` separator.  It works on
`List Char` so that the round-trip lemmas needed for the idempotence
analysis stay elementary. -/

abbrev Chars := List Char

/-- Characters terminating the authority component. -/
def isStopAuth (c : Char) : Bool := c = '/' || c = '?' || c = '#'

/-- Characters terminating the pathname component. -/
def isStopPath (c : Char) : Bool := c = '?' || c = '#'

/-- Split an URL string at the first occurrence of the literal `://`. -/
def splitScheme : Chars → Option (Chars × Chars)
  | [] => none
  | c :: rest =>
    if c = ':' ∧ rest.take 2 = ['/', '/'] then some ([], rest.drop 2)
    else
      match splitScheme rest with
      | some (a, b) => some (c :: a, b)
      | none => none

/-- Parsed URL: `scheme://host` ++ pathname ++ suffix, where suffix is the
serialized query/fragment part (empty, or starting with `?` or `#`). -/
structure URLM where
  scheme : Chars
  host : Chars
  pathname : Chars
  suffix : Chars
deriving DecidableEq

/-- Authority/path/query decomposition once the scheme has been split
off. -/
def parseURLAux (sch rest : Chars) : Option URLM :=
  if sch = [] then none
  else if ¬ sch.all (·.isAlpha) then none
  else if rest.takeWhile (fun c => !(isStopAuth c)) = [] then none
    else if rest.dropWhile (fun c => !(isStopAuth c)) = [] then
      some ⟨sch, rest.takeWhile (fun c => !(isStopAuth c)), ['/'], []⟩
    else if (rest.dropWhile (fun c => !(isStopAuth c))).head? = some '/' then
      some ⟨sch, rest.takeWhile (fun c => !(isStopAuth c)),
            (rest.dropWhile (fun c => !(isStopAuth c))).takeWhile
              (fun c => !(isStopPath c)),
            (rest.dropWhile (fun c => !(isStopAuth c))).dropWhile
              (fun c => !(isStopPath c))⟩
    else
      some ⟨sch, rest.takeWhile (fun c => !(isStopAuth c)), ['/'],
            rest.dropWhile (fun c => !(isStopAuth c))⟩

def parseURL (l : Chars) : Option URLM :=
  match splitScheme l with
  | none => none
  | some (sch, rest) => parseURLAux sch rest

def serializeURL (u : URLM) : Chars :=
  u.scheme ++ ':' :: '/' :: '/' :: u.host ++ u.pathname ++ u.suffix

/-- The regex replacement `path.replace(/\/+$/, "")`. -/
def dropTrailingSlashes (l : Chars) : Chars :=
  (l.reverse.dropWhile (fun c => c == '/')).reverse

/-- The regex replacement `s.replace(/\/$/, "")` on the serialized URL. -/
def stripOneTrailingSlash (l : Chars) : Chars :=
  if l.getLast? = some '/' then l.dropLast else l

def assistantSeg : Chars := "/assistant".toList

/-- List-level body of `normalizeAssistantBase(host)`: ensure a scheme,
strip trailing slashes from the pathname, ensure the `/assistant` suffix,
serialize, and drop one trailing slash.  `none` models the `URL`
constructor throwing. -/
def normBaseL (host : Chars) : Option Chars :=
  match parseURL (if "http".toList.isPrefixOf host then host
                  else "https://".toList ++ host) with
  | none => none
  | some u =>
    let path := dropTrailingSlashes u.pathname
    let newPath := if assistantSeg.isSuffixOf path then path
                   else path ++ assistantSeg
    some (stripOneTrailingSlash (serializeURL ⟨u.scheme, u.host, newPath, u.suffix⟩))

/-- `normalizeAssistantBase(host)` from the source, as a `String → Option
String` function (`none` models the `URL` constructor throwing on an
unparsable input). -/
def normalizeAssistantBase (host : String) : Option String :=
  (normBaseL host.toList).map (⟨·⟩)

/-! ## parseInt -/

/-- Value of the leading decimal-digit run, `none` when there is none. -/
def digitsVal (l : Chars) : Option Nat :=
  let ds := l.takeWhile (·.isDigit)
  if ds = [] then none
  else some (ds.foldl (fun a c => a * 10 + (c.toNat - 48)) 0)

/-- The call `parseInt(s, 10)`: skip leading whitespace, optional sign,
then a decimal digit run; `none` models `NaN`. -/
def jsParseInt (s : String) : Option Int :=
  let l := s.toList.dropWhile (·.isWhitespace)
  match l with
  | '-' :: rest => (digitsVal rest).map (fun n => -(n : Int))
  | '+' :: rest => (digitsVal rest).map (fun n => (n : Int))
  | _ => (digitsVal l).map (fun n => (n : Int))

/-! ## Percent encoding and JSON serialization (platform functions used
when building outbound URLs) -/

def hexDigit (n : Nat) : Char :=
  if n < 10 then Char.ofNat (48 + n) else Char.ofNat (55 + n)

/-- UTF-8 bytes of a character (for percent-encoding non-ASCII input). -/
def utf8Bytes (c : Char) : List Nat :=
  let n := c.toNat
  if n < 0x80 then [n]
  else if n < 0x800 then [0xC0 + n / 64, 0x80 + n % 64]
  else if n < 0x10000 then
    [0xE0 + n / 4096, 0x80 + n / 64 % 64, 0x80 + n % 64]
  else
    [0xF0 + n / 262144, 0x80 + n / 4096 % 64, 0x80 + n / 64 % 64, 0x80 + n % 64]

def percentByte (b : Nat) : Chars := ['%', hexDigit (b / 16), hexDigit (b % 16)]

/-- Characters `encodeURIComponent` leaves unescaped. -/
def isUriUnreserved (c : Char) : Bool :=
  c.isAlphanum || c = '-' || c = '_' || c = '.' || c = '!' || c = '~' ||
    c = '*' || c.toNat = 39 || c = '(' || c = ')'

/-- The platform function `encodeURIComponent`. -/
def encodeURIComponent (s : String) : String :=
  ⟨s.toList.flatMap fun c =>
    if isUriUnreserved c then [c] else (utf8Bytes c).flatMap percentByte⟩

/-- Characters kept verbatim by `URLSearchParams` serialization. -/
def isFormUnreserved (c : Char) : Bool :=
  c.isAlphanum || c = '*' || c = '-' || c = '.' || c = '_'

/-- Form-urlencoded escaping used by `url.searchParams.set` (space becomes
`+`, other reserved characters are percent-encoded). -/
def formEncode (s : String) : String :=
  ⟨s.toList.flatMap fun c =>
    if isFormUnreserved c then [c]
    else if c = ' ' then ['+']
    else (utf8Bytes c).flatMap percentByte⟩

/-- JSON string-literal escaping. -/
def jsonEscapeChar (c : Char) : Chars :=
  if c = '"' then ['\\', '"']
  else if c = '\\' then ['\\', '\\']
  else if c = (Char.ofNat 10) then ['\\', 'n']
  else if c = (Char.ofNat 13) then ['\\', 'r']
  else if c = (Char.ofNat 9) then ['\\', 't']
  else if c.toNat < 32 then
    ['\\', 'u', '0', '0', hexDigit (c.toNat / 16), hexDigit (c.toNat % 16)]
  else [c]

def jsonQuote (s : String) : Chars :=
  '"' :: s.toList.flatMap jsonEscapeChar ++ ['"']

def joinComma : List Chars → Chars
  | [] => []
  | [x] => x
  | x :: xs => x ++ ',' :: joinComma xs

mutual

/-- The platform function `JSON.stringify`; `none` models the `undefined`
result on a bare `undefined` input. -/
def jsStringify : Js → Option Chars
  | .null => some "null".toList
  | .undefined => none
  | .bool true => some "true".toList
  | .bool false => some "false".toList
  | .num n => some (toString n).toList
  | .str s => some (jsonQuote s)
  | .arr xs => some ('[' :: joinComma (jsStringifyArr xs) ++ [']'])
  | .obj fs => some ('{' :: joinComma (jsStringifyObj fs) ++ ['}'])

/-- Array elements serialize with `undefined` rendered as `null`. -/
def jsStringifyArr : List Js → List Chars
  | [] => []
  | x :: xs => ((jsStringify x).getD "null".toList) :: jsStringifyArr xs

/-- Object entries with `undefined` values are dropped. -/
def jsStringifyObj : List (String × Js) → List Chars
  | [] => []
  | (k, v) :: xs =>
    match jsStringify v with
    | some sv => (jsonQuote k ++ ':' :: sv) :: jsStringifyObj xs
    | none => jsStringifyObj xs

end

/-! ## HTTP layer: responses, error enrichment, and the retrying
dispatcher `doFetch` -/

/-- An upstream HTTP response as observed by the handler: status, reason
phrase, final URL, the `retry-after` header, and the body under its two
possible decodings (`jsonBody = none` models `resp.json()` throwing,
`textBody = none` models `resp.text()` throwing). -/
structure HttpResponse where
  status : Nat
  statusText : String := ""
  url : String := ""
  retryAfter : Option String := none
  jsonBody : Option Js := none
  textBody : Option String := none
deriving DecidableEq

/-- `resp.ok`: status in the 2xx range. -/
def respOk (r : HttpResponse) : Bool := 200 ≤ r.status && r.status < 300

/-- A thrown error as normalized by `normalizeError`: `http = true` marks
the `__http` tag set by `enrich`, in which case `status`, `url` and `body`
are meaningful; otherwise the error surfaces with status 500 and no
details. -/
structure HErr where
  http : Bool := false
  status : Nat := 0
  message : String
  url : String := ""
  body : Js := .null
deriving DecidableEq

/-- Body capture in `enrich`: the JSON decoding when it parses, else the
text decoding, else `null`. -/
def captureBody (r : HttpResponse) : Js :=
  match r.jsonBody with
  | some j => j
  | none =>
    match r.textBody with
    | some t => .str t
    | none => .null

/-- The `enrich(resp)` error constructor. -/
def enrich (r : HttpResponse) : HErr :=
  { http := true
    status := r.status
    message := "Request failed: " ++ toString r.status ++ " " ++ r.statusText
    url := r.url
    body := captureBody r }

/-- The error thrown when `resp.json()` fails on a success response. -/
def jsonParseError : HErr := { message := "Unexpected token in JSON body" }

/-- The raw value fed to `parseInt`: `resp.headers.get("retry-after") || "0"`
(absent header and empty header both fall back to `"0"`). -/
def retryAfterRaw (r : HttpResponse) : String :=
  match r.retryAfter with
  | some s => if s = "" then "0" else s
  | none => "0"

/-- The backoff delay computed on a 429 with `retries` remaining:
`Number.isFinite(ra) && ra > 0 ? ra * 1000 : (3 - retries) * 500 + jitter`
with `jitter = Math.floor(Math.random() * 200)`. -/
def retryDelay (r : HttpResponse) (retries : Nat) (jitter : Fin 200) : Int :=
  match jsParseInt (retryAfterRaw r) with
  | some ra => if 0 < ra then ra * 1000 else (3 - (retries : Int)) * 500 + jitter.val
  | none => (3 - (retries : Int)) * 500 + jitter.val

/-- The dispatcher `doFetch(url, opts, retries)`.  `responses i` is the
response to the `i`-th fetch of this call chain and `jitter i` the random
jitter drawn before the `i`-th retry.  Returns the final outcome (the
response on 2xx, the enriched error otherwise), the number of fetch
attempts made, and the list of backoff delays slept. -/
def doFetch (responses : Nat → HttpResponse) (jitter : Nat → Fin 200) :
    Nat → Nat → Except HErr HttpResponse × Nat × List Int
  | idx, 0 =>
    let resp := responses idx
    if respOk resp then (.ok resp, 1, []) else (.error (enrich resp), 1, [])
  | idx, retries + 1 =>
    let resp := responses idx
    if resp.status = 429 then
      let rest := doFetch responses jitter (idx + 1) retries
      (rest.1, rest.2.1 + 1, retryDelay resp (retries + 1) (jitter idx) :: rest.2.2)
    else if respOk resp then (.ok resp, 1, [])
    else (.error (enrich resp), 1, [])

/-! ## Environment, host cache, and host resolution -/

/-- A record of one outbound network call (method, URL, JSON body of a
POST).  Every effectful model function returns the list of calls it made,
so "issues no network call" claims are statements about this trace. -/
structure NetCall where
  method : String
  url : String
  body : Option Js := none
deriving DecidableEq

/-- Deterministic network oracle plus clock: `responses u` is the response
the upstream returns for a request to URL `u`, `jitter i` the random
backoff jitter for the `i`-th retry, `now` the value of `Date.now()`. -/
structure Env where
  now : Nat
  responses : String → HttpResponse
  jitter : Nat → Fin 200

/-- Run `doFetch(url, opts)` (default `retries = 2`) against the
environment's response for that URL. -/
def fetchUrl (env : Env) (url : String) : Except HErr HttpResponse :=
  (doFetch (fun _ => env.responses url) env.jitter 0 2).1

def HOST_CACHE_TTL_MS : Nat := 5 * 60 * 1000

/-- One entry of the module-level `hostCache` map. -/
structure CacheEntry where
  host : String
  expiresAt : Nat
deriving DecidableEq

/-- The `hostCache` map, assistant name to entry (insertion-ordered, keys
unique, as a JavaScript `Map`). -/
abbrev Cache := List (String × CacheEntry)

/-- `hostCache.set(k, v)`: overwrite in place when the key exists, append
otherwise. -/
def mapSet : Cache → String → CacheEntry → Cache
  | [], k, v => [(k, v)]
  | (k', v') :: rest, k, v =>
    if k' = k then (k, v) :: rest else (k', v') :: mapSet rest k v

/-- Control-plane URL for host discovery / describe-assistant. -/
def discUrl (assistantName : String) : String :=
  "https://api.pinecone.io/assistant/assistants/" ++ encodeURIComponent assistantName

def missingHostError : HErr := { message := "Assistant response missing \x27host\x27" }

/-- The `URL` constructor throwing inside `normalizeAssistantBase`. -/
def invalidUrlError : HErr := { message := "Invalid URL" }

/-- The `TypeError` raised when `data.host` is truthy but not a string. -/
def hostTypeError : HErr := { message := "data.host.startsWith is not a function" }

/-- Cache-miss path of `getAssistantBase`: discovery fetch, `host` field
check, normalization, cache store with expiry `now + TTL`. -/
def getAssistantBaseFetch (env : Env) (assistantName : String) (cache : Cache) :
    Except HErr (String × Cache) × List NetCall :=
  let url := discUrl assistantName
  (match fetchUrl env url with
   | .error e => .error e
   | .ok resp =>
     match resp.jsonBody with
     | none => .error jsonParseError
     | some data =>
       let h := jsGet data "host"
       if ¬ jsTruthy h then .error missingHostError
       else
         match h with
         | .str s =>
           let hostUrl := if jsStartsWith s "http" then s else "https://" ++ s
           match normalizeAssistantBase hostUrl with
           | some base =>
             .ok (base, mapSet cache assistantName ⟨base, env.now + HOST_CACHE_TTL_MS⟩)
           | none => .error invalidUrlError
         | _ => .error hostTypeError,
   [⟨"GET", url, none⟩])

/-- `getAssistantBase(assistantName)`: cached host when the entry is still
valid (`expiresAt > now`), discovery otherwise. -/
def getAssistantBase (env : Env) (assistantName : String) (cache : Cache) :
    Except HErr (String × Cache) × List NetCall :=
  match cache.lookup assistantName with
  | some cached =>
    if cached.expiresAt > env.now then (.ok (cached.host, cache), [])
    else getAssistantBaseFetch env assistantName cache
  | none => getAssistantBaseFetch env assistantName cache

/-- The expression `assistant_host ? normalizeAssistantBase(assistant_host)
: await getAssistantBase(name)` shared by the data-plane cases. -/
def resolveBase (env : Env) (hostOpt : Option String) (name : String) (cache : Cache) :
    Except HErr (String × Cache) × List NetCall :=
  match hostOpt with
  | some h =>
    (match normalizeAssistantBase h with
     | some b => .ok (b, cache)
     | none => .error invalidUrlError, [])
  | none => getAssistantBase env name cache

/-! ## Per-action request/response shaping -/

/-- Truthiness of `messages?.length`. -/
def jsLengthTruthy : Js → Bool
  | .arr xs => !xs.isEmpty
  | .str s => s != ""
  | _ => false

/-- Payload built by the `chat` case (field order follows the object
literal in the source; `filter`, `json_response`, `context_options`,
`top_k` are conditional spreads). -/
def chatPayload (data : Js) : Js :=
  let message := jsGet data "message"
  let context := jsGetD data "context" (.arr [])
  let model := jsGetD data "model" (.str "gpt-4o")
  let temperature := jsGetD data "temperature" (.num 0)
  let filter := jsGet data "filter"
  let json_response := jsGet data "json_response"
  let stream := jsGetD data "stream" (.bool false)
  let include_highlights := jsGetD data "include_highlights" (.bool false)
  let context_options := jsGet data "context_options"
  let top_k := jsGet data "top_k"
  Js.obj
    ([("messages", Js.arr ((jsSpreadArr context ++
        [if jsTruthy message then
           Js.obj [("role", .str "user"), ("content", message)]
         else Js.null]).filter (fun x => jsTruthy x))),
      ("model", model), ("temperature", temperature), ("stream", stream),
      ("include_highlights", include_highlights)]
     ++ (if jsTruthy filter then [("filter", filter)] else [])
     ++ (if jsTruthy json_response then [("json_response", .bool true)] else [])
     ++ (if jsTruthy context_options then [("context_options", context_options)] else [])
     ++ (if jsIsFiniteNum top_k then [("top_k", top_k)] else []))

/-- Response mapping of the `chat` case. -/
def chatResultData (out : Js) : Js :=
  Js.obj
    [("response", jsNullish (jsGet (jsGet out "message") "content") (.str "")),
     ("citations", jsNullish (jsGet out "citations") (.arr [])),
     ("context_snippets", jsNullish (jsGet out "context_snippets") (.arr [])),
     ("usage", jsNullish (jsGet out "usage") (.obj [])),
     ("model", jsGet out "model")]

/-- Payload built by the `search` case: `messages?.length ? \x7bmessages\x7d :
(query ? \x7bquery\x7d : null)`, then conditional `filter`, `top_k`,
`context_options` assignments; `none` is the `null` payload that fails
validation. -/
def searchPayload (data : Js) : Option Js :=
  let query := jsGet data "query"
  let messages := jsGet data "messages"
  let top_k := jsGet data "top_k"
  let filter := jsGet data "filter"
  let context_options := jsGet data "context_options"
  let base : Option (List (String × Js)) :=
    if jsLengthTruthy messages then some [("messages", messages)]
    else if jsTruthy query then some [("query", query)]
    else none
  base.map fun fs =>
    Js.obj (fs
      ++ (if jsTruthy filter then [("filter", filter)] else [])
      ++ (if jsIsFiniteNum top_k then [("top_k", top_k)] else [])
      ++ (if jsTruthy context_options then [("context_options", context_options)] else []))

/-- Response mapping of the `search` case. -/
def searchResultData (out : Js) : Js :=
  Js.obj
    [("snippets", jsNullish (jsGet out "snippets") (.arr [])),
     ("usage", jsNullish (jsGet out "usage") (.obj [])),
     ("id", jsGet out "id")]

/-- Helper `describeAssistant(assistantName)`. -/
def describeAssistant (env : Env) (assistantName : String) :
    Except HErr Js × List NetCall :=
  let url := discUrl assistantName
  (match fetchUrl env url with
   | .error e => .error e
   | .ok resp =>
     match resp.jsonBody with
     | some j => .ok j
     | none => .error jsonParseError,
   [⟨"GET", url, none⟩])

/-- Helper `listAssistants()`. -/
def listAssistants (env : Env) : Except HErr Js × List NetCall :=
  let url := "https://api.pinecone.io/assistant/assistants"
  (match fetchUrl env url with
   | .error e => .error e
   | .ok resp =>
     match resp.jsonBody with
     | some j => .ok j
     | none => .error jsonParseError,
   [⟨"GET", url, none⟩])

/-- URL built by `listFiles` (optional JSON `filter` as a search
parameter). -/
def listFilesUrl (base assistantName : String) (filter : Js) : String :=
  base ++ "/files/" ++ encodeURIComponent assistantName ++
    (if jsTruthy filter then
       "?filter=" ++ formEncode ⟨(jsStringify filter).getD "undefined".toList⟩
     else "")

/-- Helper `listFiles(base, assistantName, filter)`. -/
def listFiles (env : Env) (base assistantName : String) (filter : Js) :
    Except HErr Js × List NetCall :=
  let url := listFilesUrl base assistantName filter
  (match fetchUrl env url with
   | .error e => .error e
   | .ok resp =>
     match resp.jsonBody with
     | some j => .ok j
     | none => .error jsonParseError,
   [⟨"GET", url, none⟩])

/-- URL built by `deleteFile`. -/
def deleteUrl (base assistantName : String) (fileId : Js) : String :=
  base ++ "/files/" ++ encodeURIComponent assistantName ++ "/" ++
    encodeURIComponent (jsToStr fileId)

/-- Helper `deleteFile(base, assistantName, fileId)`: HTTP 200 and 204 are
acknowledged without touching the body; any other (necessarily 2xx)
response is parsed as JSON and returned. -/
def deleteFile (env : Env) (base assistantName : String) (fileId : Js) :
    Except HErr Js × List NetCall :=
  let url := deleteUrl base assistantName fileId
  (match fetchUrl env url with
   | .error e => .error e
   | .ok resp =>
     if resp.status = 200 ∨ resp.status = 204 then
       .ok (.obj [("deleted", .bool true), ("file_id", fileId)])
     else
       match resp.jsonBody with
       | some j => .ok j
       | none => .error jsonParseError,
   [⟨"DELETE", url, none⟩])

/-- The informational `LIMITS` constant attached to the `store` stub. -/
def LIMITS : Js :=
  .obj [("upload_rpm",
          .obj [("starter", .num 5), ("standard", .num 20), ("enterprise", .num 300)]),
        ("file_size_mb",
          .obj [("pdf", .obj [("starter", .num 10), ("standard", .num 100),
                              ("enterprise", .num 100)]),
                ("text_like", .num 10)])]

/-! ## The request handler (the switch on `action`; the CORS, method and
bearer-auth pre-filters are outside the modelled core) -/

/-- A validation-failure body. -/
def vErrBody (msg : String) : Js :=
  .obj [("success", .bool false), ("error", .str msg)]

/-- A success envelope. -/
def successBody (ty : String) (d : Js) : Js :=
  .obj [("success", .bool true), ("type", .str ty), ("data", d)]

/-- Status chosen by the top-level catch via `normalizeError`. -/
def errStatus (e : HErr) : Nat := if e.http then e.status else 500

/-- Failure envelope built by the top-level catch (the `details` key is
absent for non-HTTP errors, as `res.json` drops `undefined`). -/
def errBody (e : HErr) : Js :=
  .obj ([("success", .bool false), ("error", .str e.message)] ++
    (if e.http then [("details", .obj [("url", .str e.url), ("body", e.body)])]
     else []))

/-- The parsed inbound request body. -/
structure RequestBody where
  action : String
  assistant_name : Option String := none
  assistant_id : Option String := none
  assistant_host : Option String := none
  data : Js := .obj []

/-- Truthiness filter for optional string fields (`""` is falsy). -/
def strTruthy : Option String → Option String
  | some s => if s = "" then none else some s
  | none => none

/-- The alias resolution `assistant_name || assistant_id`. -/
def reqName (req : RequestBody) : Option String :=
  match strTruthy req.assistant_name with
  | some s => some s
  | none => strTruthy req.assistant_id

/-- Result of one handler invocation: HTTP status, JSON body, host cache
after the call, and the outbound network calls made. -/
structure HandlerOutcome where
  status : Nat
  body : Js
  cache : Cache
  calls : List NetCall
deriving DecidableEq

/-- The handler's `switch (action)`, with the shared mutable `hostCache`
threaded explicitly and the try/catch folded into each case via
`errStatus`/`errBody`. -/
def handler (req : RequestBody) (env : Env) (cache : Cache) : HandlerOutcome :=
  let name := reqName req
  let hostOpt := strTruthy req.assistant_host
  match req.action with
  | "chat" =>
    match name with
    | none => ⟨400, vErrBody "assistant_name is required", cache, []⟩
    | some nm =>
      match resolveBase env hostOpt nm cache with
      | (.error e, calls) => ⟨errStatus e, errBody e, cache, calls⟩
      | (.ok (base, c1), calls) =>
        let payload := chatPayload req.data
        let url := base ++ "/chat/" ++ encodeURIComponent nm
        let post : NetCall := ⟨"POST", url, some payload⟩
        match fetchUrl env url with
        | .error e => ⟨errStatus e, errBody e, c1, calls ++ [post]⟩
        | .ok resp =>
          match resp.jsonBody with
          | none => ⟨errStatus jsonParseError, errBody jsonParseError, c1, calls ++ [post]⟩
          | some out =>
            ⟨200, successBody "chat" (chatResultData out), c1, calls ++ [post]⟩
  | "search" =>
    match name with
    | none => ⟨400, vErrBody "assistant_name is required", cache, []⟩
    | some nm =>
      match resolveBase env hostOpt nm cache with
      | (.error e, calls) => ⟨errStatus e, errBody e, cache, calls⟩
      | (.ok (base, c1), calls) =>
        match searchPayload req.data with
        | none =>
          ⟨400, vErrBody "search: provide \x27query\x27 or \x27messages\x27", c1, calls⟩
        | some payload =>
          let url := base ++ "/chat/" ++ encodeURIComponent nm ++ "/context"
          let post : NetCall := ⟨"POST", url, some payload⟩
          match fetchUrl env url with
          | .error e => ⟨errStatus e, errBody e, c1, calls ++ [post]⟩
          | .ok resp =>
            match resp.jsonBody with
            | none =>
              ⟨errStatus jsonParseError, errBody jsonParseError, c1, calls ++ [post]⟩
            | some out =>
              ⟨200, successBody "search" (searchResultData out), c1, calls ++ [post]⟩
  | "describeAssistant" =>
    match name with
    | none => ⟨400, vErrBody "assistant_name is required", cache, []⟩
    | some nm =>
      match describeAssistant env nm with
      | (.error e, calls) => ⟨errStatus e, errBody e, cache, calls⟩
      | (.ok j, calls) => ⟨200, successBody "describeAssistant" j, cache, calls⟩
  | "listAssistants" =>
    match listAssistants env with
    | (.error e, calls) => ⟨errStatus e, errBody e, cache, calls⟩
    | (.ok j, calls) => ⟨200, successBody "listAssistants" j, cache, calls⟩
  | "listFiles" =>
    match name with
    | none => ⟨400, vErrBody "assistant_name is required", cache, []⟩
    | some nm =>
      match resolveBase env hostOpt nm cache with
      | (.error e, calls) => ⟨errStatus e, errBody e, cache, calls⟩
      | (.ok (base, c1), calls) =>
        match listFiles env base nm (jsGet req.data "filter") with
        | (.error e, calls2) => ⟨errStatus e, errBody e, c1, calls ++ calls2⟩
        | (.ok j, calls2) => ⟨200, successBody "listFiles" j, c1, calls ++ calls2⟩
  | "deleteFile" =>
    match name with
    | none => ⟨400, vErrBody "assistant_name is required", cache, []⟩
    | some nm =>
      if ¬ jsTruthy (jsGet req.data "file_id") then
        ⟨400, vErrBody "file_id is required", cache, []⟩
      else
        match resolveBase env hostOpt nm cache with
        | (.error e, calls) => ⟨errStatus e, errBody e, cache, calls⟩
        | (.ok (base, c1), calls) =>
          match deleteFile env base nm (jsGet req.data "file_id") with
          | (.error e, calls2) => ⟨errStatus e, errBody e, c1, calls ++ calls2⟩
          | (.ok j, calls2) => ⟨200, successBody "deleteFile" j, c1, calls ++ calls2⟩
  | "store" =>
    ⟨501,
     .obj [("success", .bool false),
           ("error", .str "File upload deferred (VS2). Use Pinecone console for now."),
           ("details", .str "REST multipart upload will be implemented in VS3."),
           ("limits", LIMITS)],
     cache, []⟩
  | _ =>
    ⟨400,
     .obj [("success", .bool false), ("error", .str "Invalid action"),
           ("supported_actions",
            .arr [.str "chat", .str "search", .str "describeAssistant",
                  .str "listAssistants", .str "listFiles", .str "deleteFile",
                  .str "store"])],
     cache, []⟩

/-! ## Concrete test fixtures (used by the witness theorems) -/

/-- Discovery response for the assistant `demo`. -/
def discRespDemo : HttpResponse :=
  { status := 200, jsonBody := some (.obj [("host", .str "demo-host.pinecone.io")]) }

/-- Chat response `\x7bmessage: \x7bcontent: "hi"\x7d\x7d`. -/
def chatRespDemo : HttpResponse :=
  { status := 200, jsonBody := some (.obj [("message", .obj [("content", .str "hi")])]) }

/-- Environment for the `demo` assistant scenarios: discovery succeeds and
the chat endpoint answers 200. -/
def envDemo : Env :=
  { now := 0
    responses := fun u =>
      if u = discUrl "demo" then discRespDemo
      else if u = "https://demo-host.pinecone.io/assistant/chat/demo" then chatRespDemo
      else { status := 500 }
    jitter := fun _ => 0 }

/-- The chat request of the specified scenario. -/
def chatReqDemo : RequestBody :=
  { action := "chat", assistant_name := some "demo",
    data := .obj [("message", .str "hello")] }

/-- The normalized shape of every successful `normalizeAssistantBase`
output: a scheme beginning with `http`, a plain host, a pathname ending in
`/assistant` (no trailing slash), and a query/fragment suffix.  Used to
settle the idempotence claim. -/
def NormalizedShape (y : Chars) : Prop :=
  ∃ sch host newPath sfx,
    y = sch ++ ':' :: '/' :: '/' :: host ++ newPath ++ sfx ∧
    "http".toList <+: sch ∧ sch ≠ [] ∧ (∀ c ∈ sch, c.isAlpha = true) ∧
    host ≠ [] ∧ (∀ c ∈ host, isStopAuth c = false) ∧
    newPath.head? = some '/' ∧ (∀ c ∈ newPath, isStopPath c = false) ∧
    assistantSeg.isSuffixOf newPath = true ∧ newPath.getLast? = some 't' ∧
    (sfx = [] ∨ ∃ c rest, sfx = c :: rest ∧ isStopPath c = true)

/-- Environment for the cold-cache resolution witness (`alpha`). -/
def envW1 : Env :=
  { now := 0
    responses := fun u =>
      if u = discUrl "alpha" then
        { status := 200, jsonBody := some (.obj [("host", .str "alpha-host.example")]) }
      else { status := 500 }
    jitter := fun _ => 0 }

/-- Same upstream as `envW1`, clock still inside the TTL window. -/
def envW2 : Env := { envW1 with now := 299999 }

/-- Same upstream as `envW1`, clock exactly at expiry. -/
def envW3 : Env := { envW1 with now := 300000 }

/-- Environment whose every response is HTTP 204 with no parseable body. -/
def envDel204 : Env :=
  { now := 0, responses := fun _ => { status := 204 }, jitter := fun _ => 0 }

/-- Environment whose every response is HTTP 202 with a JSON body. -/
def envDel202 : Env :=
  { now := 0
    responses := fun _ =>
      { status := 202, jsonBody := some (.obj [("queued", .bool true)]) }
    jitter := fun _ => 0 }

/-- Rate-limited response stream: first attempt carries `Retry-After: 3`,
the second a malformed header, later ones none. -/
def respW429 : Nat → HttpResponse := fun i =>
  if i = 0 then { status := 429, retryAfter := some "3" }
  else if i = 1 then { status := 429, retryAfter := some "junk" }
  else { status := 429 }

/-- Constant jitter stream used by dispatcher witnesses. -/
def jitW : Nat → Fin 200 := fun _ => (7 : Fin 200)

/-! ## Basic list and String bridge lemmas -/

theorem takeWhile_append_all {p : Char → Bool} :
    ∀ {a b : Chars}, (∀ c ∈ a, p c = true) →
      (a ++ b).takeWhile p = a ++ b.takeWhile p := by
  intro a b h
  induction a with
  | nil => simp
  | cons x xs ih =>
    have hx : p x = true := h x (by simp)
    simp only [List.cons_append, List.takeWhile_cons, hx]
    simp [ih fun c hc => h c (by simp [hc])]

theorem dropWhile_append_all {p : Char → Bool} :
    ∀ {a b : Chars}, (∀ c ∈ a, p c = true) →
      (a ++ b).dropWhile p = b.dropWhile p := by
  intro a b h
  induction a with
  | nil => simp
  | cons x xs ih =>
    have hx : p x = true := h x (by simp)
    simp only [List.cons_append, List.dropWhile_cons, hx]
    simp [ih fun c hc => h c (by simp [hc])]

theorem mem_takeWhile_pred {p : Char → Bool} :
    ∀ {l : Chars} {c : Char}, c ∈ l.takeWhile p → p c = true := by
  intro l
  induction l with
  | nil => intro c h; simp [List.takeWhile] at h
  | cons x xs ih =>
    intro c h
    by_cases hx : p x = true
    · simp [List.takeWhile_cons, hx] at h
      rcases h with h | h
      · exact h ▸ hx
      · exact ih h
    · simp [List.takeWhile_cons, Bool.eq_false_iff.mpr hx] at h

theorem head?_dropWhile_not {p : Char → Bool} :
    ∀ {l : Chars} {c : Char}, (l.dropWhile p).head? = some c → p c = false := by
  intro l
  induction l with
  | nil => intro c h; simp [List.dropWhile] at h
  | cons x xs ih =>
    intro c h
    by_cases hx : p x = true
    · exact ih (by simpa [List.dropWhile_cons, hx] using h)
    · have hx' : p x = false := Bool.eq_false_iff.mpr hx
      simp [List.dropWhile_cons, hx'] at h
      exact h ▸ hx'

theorem splitScheme_sep (rest : Chars) :
    splitScheme (':' :: '/' :: '/' :: rest) = some ([], rest) := by
  simp [splitScheme]

theorem splitScheme_cons_ne {a : Char} (h : a ≠ ':') (l : Chars) :
    splitScheme (a :: l) = (splitScheme l).map fun p => (a :: p.1, p.2) := by
  rw [splitScheme]
  rw [if_neg (by simp [h])]
  rcases h' : splitScheme l with _ | ⟨p1, p2⟩ <;> simp [h']

theorem splitScheme_append {sch : Chars} (rest : Chars) (h1 : sch ≠ [])
    (h2 : ∀ c ∈ sch, c ≠ ':') :
    splitScheme (sch ++ ':' :: '/' :: '/' :: rest) = some (sch, rest) := by
  induction sch with
  | nil => exact absurd rfl h1
  | cons a tl ih =>
    have ha : a ≠ ':' := h2 a (by simp)
    rw [List.cons_append, splitScheme_cons_ne ha]
    cases tl with
    | nil => simp [splitScheme_sep]
    | cons b tl' =>
      rw [ih (by simp) fun c hc => h2 c (by simp [hc])]
      rfl

theorem splitScheme_eq_append :
    ∀ {l a b : Chars}, splitScheme l = some (a, b) → l = a ++ ':' :: '/' :: '/' :: b := by
  intro l
  induction l with
  | nil => intro a b h; simp [splitScheme] at h
  | cons c rest ih =>
    intro a b h
    by_cases hc : c = ':' ∧ rest.take 2 = ['/', '/']
    · rw [splitScheme, if_pos hc] at h
      simp only [Option.some.injEq, Prod.mk.injEq] at h
      obtain ⟨ha, hb⟩ := h
      subst ha
      subst hb
      have h2 := List.take_append_drop 2 rest
      simp only [List.nil_append]
      rw [hc.1]
      congr 1
      conv_lhs => rw [← h2, hc.2]
      rfl
    · rw [splitScheme, if_neg hc] at h
      rcases h' : splitScheme rest with _ | ⟨a', b'⟩
      · rw [h'] at h; simp at h
      · rw [h'] at h
        simp only [Option.some.injEq, Prod.mk.injEq] at h
        obtain ⟨ha, hb⟩ := h
        subst ha
        subst hb
        rw [List.cons_append, ih h']

theorem dropTrailingSlashes_prefix (l : Chars) : dropTrailingSlashes l <+: l := by
  obtain ⟨t, ht⟩ := List.dropWhile_suffix (l := l.reverse) (fun c => c == '/')
  exact ⟨t.reverse, by
    rw [dropTrailingSlashes, ← List.reverse_append, ht, List.reverse_reverse]⟩

theorem dropTrailingSlashes_of_getLast {l : Chars} {c : Char}
    (h : l.getLast? = some c) (hc : c ≠ '/') : dropTrailingSlashes l = l := by
  unfold dropTrailingSlashes
  have hr : l.reverse.head? = some c := by rw [List.head?_reverse]; exact h
  rcases h' : l.reverse with _ | ⟨x, xs⟩
  · rw [h'] at hr; simp at hr
  · rw [h'] at hr
    simp only [List.head?_cons, Option.some.injEq] at hr
    subst hr
    rw [List.dropWhile_cons, if_neg (by simp [hc])]
    rw [← h', List.reverse_reverse]

theorem stripOne_of_ne {l : Chars} (h : ¬ l.getLast? = some '/') :
    stripOneTrailingSlash l = l := by
  rw [stripOneTrailingSlash, if_neg h]

theorem prefix_head? {p l : Chars} (h : p <+: l) (hp : p ≠ []) : l.head? = p.head? := by
  obtain ⟨t, rfl⟩ := h
  exact List.head?_append_of_ne_nil p hp

theorem suffix_getLast? {s l : Chars} (h : s <:+ l) (hs : s ≠ []) :
    l.getLast? = s.getLast? := by
  obtain ⟨t, rfl⟩ := h
  exact List.getLast?_append_of_ne_nil t hs

theorem head?_dropLast {l : Chars} (h : l.dropLast ≠ []) :
    l.dropLast.head? = l.head? := by
  rcases l with _ | ⟨x, xs⟩
  · simp at h
  · rcases xs with _ | ⟨y, ys⟩
    · simp at h
    · rw [List.dropLast_cons_of_ne_nil (by simp)]
      rfl

/-! ## Dispatcher and resolver lemmas -/

theorem fetchUrl_ok_of_2xx (env : Env) (url : String)
    (h1 : 200 ≤ (env.responses url).status) (h2 : (env.responses url).status < 300) :
    fetchUrl env url = .ok (env.responses url) := by
  have h429 : ¬ (env.responses url).status = 429 := by omega
  have hok : respOk (env.responses url) = true := by
    simp only [respOk, Bool.and_eq_true, decide_eq_true_eq]
    exact ⟨h1, h2⟩
  rw [fetchUrl, doFetch]
  simp [h429, hok]

theorem mapSet_lookup_self :
    ∀ (c : Cache) (k : String) (v : CacheEntry), (mapSet c k v).lookup k = some v := by
  intro c k v
  induction c with
  | nil => simp [mapSet, List.lookup]
  | cons p rest ih =>
    obtain ⟨k', v'⟩ := p
    by_cases h : k' = k
    · subst h; simp [mapSet, List.lookup]
    · have hbeq : (k == k') = false := beq_eq_false_iff_ne.mpr (Ne.symm h)
      simp [mapSet, h, List.lookup, hbeq, ih]

theorem getAssistantBaseFetch_ok (env : Env) (name h b : String) (cache : Cache)
    (hst : (env.responses (discUrl name)).status = 200)
    (hjs : (env.responses (discUrl name)).jsonBody = some (.obj [("host", .str h)]))
    (hh : h ≠ "")
    (hnb : normalizeAssistantBase (if jsStartsWith h "http" then h else "https://" ++ h) =
      some b) :
    getAssistantBaseFetch env name cache =
      (.ok (b, mapSet cache name ⟨b, env.now + HOST_CACHE_TTL_MS⟩),
       [⟨"GET", discUrl name, none⟩]) := by
  have hf : fetchUrl env (discUrl name) = .ok (env.responses (discUrl name)) :=
    fetchUrl_ok_of_2xx env _ (by omega) (by omega)
  simp [getAssistantBaseFetch, hf, hjs, jsGet, List.lookup, jsTruthy, hh, hnb]

theorem doFetch_attempts_le (responses : Nat → HttpResponse) (jitter : Nat → Fin 200) :
    ∀ (retries idx : Nat), (doFetch responses jitter idx retries).2.1 ≤ retries + 1 := by
  intro retries
  induction retries with
  | zero =>
    intro idx
    rw [doFetch]
    split <;> simp
  | succ r ih =>
    intro idx
    rw [doFetch]
    split
    · simpa using Nat.succ_le_succ (ih (idx + 1))
    · split <;> simp

/-- C2: for every Dispatcher call whose upstream responses are all HTTP
429, the default invocation makes exactly 3 attempts (2 retries after the
initial one) and surfaces a terminal enriched upstream error carrying the
429 status; in general the attempt count is bounded by `retries + 1`, the
recursion consuming one unit of `retriesRemaining` per retry. -/
theorem C2_retry_cap_and_termination :
    (∀ (responses : Nat → HttpResponse) (jitter : Nat → Fin 200),
      (∀ i, (responses i).status = 429) →
      (doFetch responses jitter 0 2).2.1 = 3 ∧
      ∃ e, (doFetch responses jitter 0 2).1 = .error e ∧
        e.http = true ∧ e.status = 429) ∧
    (∀ (responses : Nat → HttpResponse) (jitter : Nat → Fin 200) (idx retries : Nat),
      (doFetch responses jitter idx retries).2.1 ≤ retries + 1) := by
  constructor
  · intro responses jitter hall
    have h0 := hall 0
    have h1 := hall 1
    have h2 := hall 2
    have hok2 : respOk (responses 2) = false := by simp [respOk, h2]
    have e2 : doFetch responses jitter 2 0 = (.error (enrich (responses 2)), 1, []) := by
      conv_lhs => rw [doFetch]
      simp [hok2]
    have e1 : doFetch responses jitter 1 1 =
        ((doFetch responses jitter 2 0).1, (doFetch responses jitter 2 0).2.1 + 1,
         retryDelay (responses 1) 1 (jitter 1) :: (doFetch responses jitter 2 0).2.2) := by
      conv_lhs => rw [doFetch]
      simp [h1]
    have e0 : doFetch responses jitter 0 2 =
        ((doFetch responses jitter 1 1).1, (doFetch responses jitter 1 1).2.1 + 1,
         retryDelay (responses 0) 2 (jitter 0) :: (doFetch responses jitter 1 1).2.2) := by
      conv_lhs => rw [doFetch]
      simp [h0]
    refine ⟨by rw [e0, e1, e2], enrich (responses 2), by rw [e0, e1, e2], rfl, ?_⟩
    simp [enrich, h2]
  · intro responses jitter idx retries
    exact doFetch_attempts_le responses jitter retries idx

/-- C2 witness: a stream of 429 responses at a concrete input. -/
theorem C2_retry_cap_and_termination_witness :
    (doFetch (fun _ => { status := 429 : HttpResponse }) (fun _ => 0) 0 2).2.1 = 3 ∧
    ∃ e, (doFetch (fun _ => { status := 429 : HttpResponse }) (fun _ => 0) 0 2).1 =
      .error e ∧ e.http = true ∧ e.status = 429 :=
  C2_retry_cap_and_termination.1 (fun _ => { status := 429 }) (fun _ => 0)
    (fun _ => rfl)

/-- C7: on a 429 with retries remaining, the backoff delay is the
Retry-After header converted from seconds to milliseconds whenever it
parses to a positive integer, and otherwise the attempt index (1-based,
equal to `3 - retriesRemaining` for the default `retries = 2` start) times
500ms plus the random jitter (below 200ms by construction). -/
theorem C7_retry_delay_policy :
    ∀ (responses : Nat → HttpResponse) (jitter : Nat → Fin 200),
      ((responses 0).status = 429 →
        (doFetch responses jitter 0 2).2.2.head? =
          some (retryDelay (responses 0) 2 (jitter 0))) ∧
      ((responses 0).status = 429 → (responses 1).status = 429 →
        (doFetch responses jitter 0 2).2.2 =
          [retryDelay (responses 0) 2 (jitter 0),
           retryDelay (responses 1) 1 (jitter 1)]) ∧
      (∀ (r : HttpResponse) (n : Nat) (j : Fin 200),
        (∀ ra : Int, jsParseInt (retryAfterRaw r) = some ra → 0 < ra →
          retryDelay r n j = ra * 1000) ∧
        (jsParseInt (retryAfterRaw r) = none →
          retryDelay r n j = (3 - (n : Int)) * 500 + j.val) ∧
        (∀ ra : Int, jsParseInt (retryAfterRaw r) = some ra → ra ≤ 0 →
          retryDelay r n j = (3 - (n : Int)) * 500 + j.val)) := by
  intro responses jitter
  refine ⟨?_, ?_, ?_⟩
  · intro h0
    have e0 : doFetch responses jitter 0 2 =
        ((doFetch responses jitter 1 1).1, (doFetch responses jitter 1 1).2.1 + 1,
         retryDelay (responses 0) 2 (jitter 0) :: (doFetch responses jitter 1 1).2.2) := by
      conv_lhs => rw [doFetch]
      simp [h0]
    rw [e0]
    rfl
  · intro h0 h1
    have e1 : doFetch responses jitter 1 1 =
        ((doFetch responses jitter 2 0).1, (doFetch responses jitter 2 0).2.1 + 1,
         retryDelay (responses 1) 1 (jitter 1) :: (doFetch responses jitter 2 0).2.2) := by
      conv_lhs => rw [doFetch]
      simp [h1]
    have e2 : (doFetch responses jitter 2 0).2.2 = [] := by
      rw [doFetch]
      split <;> rfl
    have e0 : doFetch responses jitter 0 2 =
        ((doFetch responses jitter 1 1).1, (doFetch responses jitter 1 1).2.1 + 1,
         retryDelay (responses 0) 2 (jitter 0) :: (doFetch responses jitter 1 1).2.2) := by
      conv_lhs => rw [doFetch]
      simp [h0]
    rw [e0, e1]
    simp [e2]
  · intro r n j
    refine ⟨?_, ?_, ?_⟩
    · intro ra hra hpos
      rw [retryDelay, hra]
      simp [hpos]
    · intro hra
      rw [retryDelay, hra]
    · intro ra hra hle
      rw [retryDelay, hra]
      simp [show ¬ (0 < ra) from not_lt.mpr hle]

/-- C7 witness: first retry honours `Retry-After: 3` (3000ms), second
falls back to `2 * 500 + jitter` on a malformed header. -/
theorem C7_retry_delay_policy_witness :
    (doFetch respW429 jitW 0 2).2.2 = [3000, 1007] := by
  have T := (C7_retry_delay_policy respW429 jitW).2.1 (by decide) (by decide)
  rw [T]
  decide

/-- C6: a deleteFile upstream response of HTTP 200 or 204 yields
`deleted: true` with the file id, independently of the response body
(which may not even parse). -/
theorem C6_deleteFile_ack :
    ∀ (env : Env) (base nm : String) (fid : Js),
      ((env.responses (deleteUrl base nm fid)).status = 200 ∨
        (env.responses (deleteUrl base nm fid)).status = 204) →
      deleteFile env base nm fid =
        (.ok (.obj [("deleted", .bool true), ("file_id", fid)]),
         [⟨"DELETE", deleteUrl base nm fid, none⟩]) := by
  intro env base nm fid h
  have hf : fetchUrl env (deleteUrl base nm fid) =
      .ok (env.responses (deleteUrl base nm fid)) := by
    rcases h with h | h <;> exact fetchUrl_ok_of_2xx env _ (by omega) (by omega)
  rw [deleteFile]
  rcases h with h | h <;> simp [hf, h]

/-- C6 witness: a 204 response with an unparseable body still acknowledges
the deletion. -/
theorem C6_deleteFile_ack_witness :
    deleteFile envDel204 "https://h.example/assistant" "demo" (.str "f1") =
      (.ok (.obj [("deleted", .bool true), ("file_id", .str "f1")]),
       [⟨"DELETE", deleteUrl "https://h.example/assistant" "demo" (.str "f1"), none⟩]) :=
  C6_deleteFile_ack envDel204 "https://h.example/assistant" "demo" (.str "f1")
    (Or.inr rfl)

/-- C10: a deleteFile upstream response with a 2xx status other than 200
or 204 (for example 202) is passed through `resp.json()`: the parsed body
becomes the result instead of the `deleted: true` acknowledgement. -/
theorem C10_deleteFile_other_2xx :
    ∀ (env : Env) (base nm : String) (fid j : Js),
      200 ≤ (env.responses (deleteUrl base nm fid)).status →
      (env.responses (deleteUrl base nm fid)).status < 300 →
      (env.responses (deleteUrl base nm fid)).status ≠ 200 →
      (env.responses (deleteUrl base nm fid)).status ≠ 204 →
      (env.responses (deleteUrl base nm fid)).jsonBody = some j →
      deleteFile env base nm fid = (.ok j, [⟨"DELETE", deleteUrl base nm fid, none⟩]) := by
  intro env base nm fid j h1 h2 h3 h4 hj
  have hf := fetchUrl_ok_of_2xx env (deleteUrl base nm fid) h1 h2
  rw [deleteFile]
  simp [hf, h3, h4, hj]

/-- C10 witness: a 202 response's JSON body is returned verbatim. -/
theorem C10_deleteFile_other_2xx_witness :
    deleteFile envDel202 "https://h.example/assistant" "demo" (.str "f1") =
      (.ok (.obj [("queued", .bool true)]),
       [⟨"DELETE", deleteUrl "https://h.example/assistant" "demo" (.str "f1"), none⟩]) :=
  C10_deleteFile_other_2xx envDel202 "https://h.example/assistant" "demo" (.str "f1")
    (.obj [("queued", .bool true)]) (by decide) (by decide) (by decide) (by decide) rfl

/-- C9: a chat request whose `data.message` is the empty string produces
exactly the payload of a request with no `message` at all (the
empty-string message is falsy and dropped by `.filter(Boolean)`), and the
outbound `messages` list is the prior `context` alone whenever the context
entries are truthy message objects. -/
theorem C9_empty_message_dropped :
    ∀ (rest : List (String × Js)),
      (rest.lookup "message" = none →
        chatPayload (.obj (("message", .str "") :: rest)) = chatPayload (.obj rest)) ∧
      (∀ ctx : List Js, rest.lookup "context" = some (.arr ctx) →
        (∀ x ∈ ctx, jsTruthy x = true) →
        jsGet (chatPayload (.obj (("message", .str "") :: rest))) "messages" =
          .arr ctx) := by
  intro rest
  constructor
  · intro hm
    simp [chatPayload, jsGet, jsGetD, List.lookup, hm, jsTruthy]
  · intro ctx hctx hall
    simp [chatPayload, jsGet, jsGetD, List.lookup, hctx, jsTruthy, jsSpreadArr,
      List.filter_append, List.filter_eq_self.mpr hall]
    exact fun a ha => hall a ha

/-- C9 witness: one prior context turn, empty current message. -/
theorem C9_empty_message_dropped_witness :
    (chatPayload (.obj [("message", .str ""),
        ("context", .arr [.obj [("role", .str "user"), ("content", .str "x")]])]) =
      chatPayload (.obj [("context",
        .arr [.obj [("role", .str "user"), ("content", .str "x")]])])) ∧
    jsGet (chatPayload (.obj [("message", .str ""),
        ("context", .arr [.obj [("role", .str "user"), ("content", .str "x")]])]))
      "messages" = .arr [.obj [("role", .str "user"), ("content", .str "x")]] :=
  ⟨(C9_empty_message_dropped
      [("context", .arr [.obj [("role", .str "user"), ("content", .str "x")]])]).1 rfl,
   (C9_empty_message_dropped
      [("context", .arr [.obj [("role", .str "user"), ("content", .str "x")]])]).2
     [.obj [("role", .str "user"), ("content", .str "x")]] rfl (by decide)⟩

/-- C1: starting from a cache with no entry for the assistant, a first
resolution performs exactly one discovery call and stores an entry with
`expiresAt = now + 5 minutes`; any second resolution strictly before that
expiry returns the cached base with zero discovery calls and leaves the
cache unchanged; a resolution at or after the expiry performs a second
discovery call and overwrites the entry with a fresh `now + 5 minutes`
expiry. -/
theorem C1_host_cache_ttl :
    ∀ (name h b : String) (cache : Cache) (env1 : Env) (t1 : Nat),
      cache.lookup name = none →
      env1.now = t1 →
      (env1.responses (discUrl name)).status = 200 →
      (env1.responses (discUrl name)).jsonBody = some (.obj [("host", .str h)]) →
      h ≠ "" →
      normalizeAssistantBase (if jsStartsWith h "http" then h else "https://" ++ h) =
        some b →
      (getAssistantBase env1 name cache =
        (.ok (b, mapSet cache name ⟨b, t1 + HOST_CACHE_TTL_MS⟩),
         [⟨"GET", discUrl name, none⟩])) ∧
      ((mapSet cache name ⟨b, t1 + HOST_CACHE_TTL_MS⟩).lookup name =
        some ⟨b, t1 + HOST_CACHE_TTL_MS⟩) ∧
      (∀ env2 : Env, env2.now < t1 + HOST_CACHE_TTL_MS →
        getAssistantBase env2 name (mapSet cache name ⟨b, t1 + HOST_CACHE_TTL_MS⟩) =
          (.ok (b, mapSet cache name ⟨b, t1 + HOST_CACHE_TTL_MS⟩), [])) ∧
      (∀ (env3 : Env) (h3 b3 : String),
        t1 + HOST_CACHE_TTL_MS ≤ env3.now →
        (env3.responses (discUrl name)).status = 200 →
        (env3.responses (discUrl name)).jsonBody = some (.obj [("host", .str h3)]) →
        h3 ≠ "" →
        normalizeAssistantBase (if jsStartsWith h3 "http" then h3 else "https://" ++ h3) =
          some b3 →
        getAssistantBase env3 name (mapSet cache name ⟨b, t1 + HOST_CACHE_TTL_MS⟩) =
          (.ok (b3, mapSet (mapSet cache name ⟨b, t1 + HOST_CACHE_TTL_MS⟩) name
                ⟨b3, env3.now + HOST_CACHE_TTL_MS⟩),
           [⟨"GET", discUrl name, none⟩])) := by
  intro name h b cache env1 t1 hmiss hnow hst hjs hh hnb
  have hfetch := getAssistantBaseFetch_ok env1 name h b cache hst hjs hh hnb
  rw [hnow] at hfetch
  refine ⟨?_, mapSet_lookup_self cache name _, ?_, ?_⟩
  · simp [getAssistantBase, hmiss, hfetch]
  · intro env2 h2
    have hl := mapSet_lookup_self cache name ⟨b, t1 + HOST_CACHE_TTL_MS⟩
    simp [getAssistantBase, hl, h2]
  · intro env3 h3 b3 hge hst3 hjs3 hh3 hnb3
    have hl := mapSet_lookup_self cache name ⟨b, t1 + HOST_CACHE_TTL_MS⟩
    have hfetch3 := getAssistantBaseFetch_ok env3 name h3 b3
      (mapSet cache name ⟨b, t1 + HOST_CACHE_TTL_MS⟩) hst3 hjs3 hh3 hnb3
    simp [getAssistantBase, hl, Nat.not_lt.mpr hge, hfetch3]

/-- C1 witness: assistant `alpha` resolved at t=0, again at t=299999
(hit), and at t=300000 (expired, re-resolved). -/
theorem C1_host_cache_ttl_witness :
    (getAssistantBase envW1 "alpha" [] =
      (.ok ("https://alpha-host.example/assistant",
            mapSet [] "alpha" ⟨"https://alpha-host.example/assistant",
              0 + HOST_CACHE_TTL_MS⟩),
       [⟨"GET", discUrl "alpha", none⟩])) ∧
    (getAssistantBase envW2 "alpha"
        (mapSet [] "alpha" ⟨"https://alpha-host.example/assistant",
          0 + HOST_CACHE_TTL_MS⟩) =
      (.ok ("https://alpha-host.example/assistant",
            mapSet [] "alpha" ⟨"https://alpha-host.example/assistant",
              0 + HOST_CACHE_TTL_MS⟩), [])) ∧
    (getAssistantBase envW3 "alpha"
        (mapSet [] "alpha" ⟨"https://alpha-host.example/assistant",
          0 + HOST_CACHE_TTL_MS⟩) =
      (.ok ("https://alpha-host.example/assistant",
            mapSet (mapSet [] "alpha" ⟨"https://alpha-host.example/assistant",
              0 + HOST_CACHE_TTL_MS⟩) "alpha"
              ⟨"https://alpha-host.example/assistant",
               envW3.now + HOST_CACHE_TTL_MS⟩),
       [⟨"GET", discUrl "alpha", none⟩])) := by
  have T := C1_host_cache_ttl "alpha" "alpha-host.example"
    "https://alpha-host.example/assistant" [] envW1 0 rfl rfl (by decide) (by decide)
    (by decide) (by decide)
  exact ⟨T.1, T.2.2.1 envW2 (by decide),
    T.2.2.2 envW3 "alpha-host.example" "https://alpha-host.example/assistant"
      (by decide) (by decide) (by decide) (by decide) (by decide)⟩

theorem resolveBase_calls (env : Env) (hostOpt : Option String) (nm : String)
    (cache : Cache) :
    (resolveBase env hostOpt nm cache).2 = [] ∨
    (resolveBase env hostOpt nm cache).2 = [⟨"GET", discUrl nm, none⟩] := by
  rcases hostOpt with _ | h
  · rw [resolveBase, getAssistantBase]
    rcases hl : cache.lookup nm with _ | e
    · right; rfl
    · by_cases hx : e.expiresAt > env.now
      · left; simp [hx]
      · right; simp [hx, getAssistantBaseFetch]
  · left; rfl

/-- C3 counterexample: a search request with neither `query` nor
`messages` does return the 400 validation error, but on a cold cache the
handler has already issued the host-discovery network call (the base URL
is resolved before payload validation), so "issues no network call" fails
at this concrete input. -/
theorem C3_counterexample :
    (handler ⟨"search", some "demo", none, none, .obj []⟩ envDemo []).status = 400 ∧
    (handler ⟨"search", some "demo", none, none, .obj []⟩ envDemo []).body =
      vErrBody "search: provide \x27query\x27 or \x27messages\x27" ∧
    (handler ⟨"search", some "demo", none, none, .obj []⟩ envDemo []).calls =
      [⟨"GET", discUrl "demo", none⟩] ∧
    (handler ⟨"search", some "demo", none, none, .obj []⟩ envDemo []).calls ≠ [] := by
  decide

/-- C3 amended: a search request whose data has neither a query nor a
non-empty messages list returns the ValidationError (HTTP 400,
success:false) and issues no chat-context (data-plane) call; however the
handler resolves the base URL first, so up to one discovery GET may
already have been issued before the validation failure. -/
theorem C3_amended :
    ∀ (req : RequestBody) (env : Env) (cache : Cache) (nm base : String)
      (c1 : Cache) (calls : List NetCall),
      req.action = "search" →
      reqName req = some nm →
      searchPayload req.data = none →
      resolveBase env (strTruthy req.assistant_host) nm cache = (.ok (base, c1), calls) →
      handler req env cache =
        ⟨400, vErrBody "search: provide \x27query\x27 or \x27messages\x27", c1, calls⟩ ∧
      (calls = [] ∨ calls = [⟨"GET", discUrl nm, none⟩]) ∧
      (∀ c ∈ calls, c.method = "GET") := by
  intro req env cache nm base c1 calls ha hn hp hr
  have hcalls := resolveBase_calls env (strTruthy req.assistant_host) nm cache
  rw [hr] at hcalls
  refine ⟨?_, by simpa using hcalls, ?_⟩
  · simp [handler, ha, hn, hr, hp]
  · intro c hc
    rcases hcalls with h | h
    · replace h : calls = [] := h
      rw [h] at hc
      simp at hc
    · replace h : calls = [⟨"GET", discUrl nm, none⟩] := h
      rw [h] at hc
      simp at hc
      simp [hc]

/-- C3 amended witness: the concrete cold-cache search request. -/
theorem C3_amended_witness :
    handler ⟨"search", some "demo", none, none, .obj []⟩ envDemo [] =
      ⟨400, vErrBody "search: provide \x27query\x27 or \x27messages\x27",
       [("demo", ⟨"https://demo-host.pinecone.io/assistant", 300000⟩)],
       [⟨"GET", discUrl "demo", none⟩]⟩ :=
  (C3_amended ⟨"search", some "demo", none, none, .obj []⟩ envDemo [] "demo"
    "https://demo-host.pinecone.io/assistant"
    [("demo", ⟨"https://demo-host.pinecone.io/assistant", 300000⟩)]
    [⟨"GET", discUrl "demo", none⟩] rfl (by decide) (by decide) rfl).1

/-- C4 counterexample: `store` with no assistant name responds 501 (the
deferred-upload stub), not the claimed 400 ValidationError. -/
theorem C4_store_counterexample :
    (handler ⟨"store", none, none, none, .obj []⟩ envDemo []).status = 501 ∧
    ¬ (handler ⟨"store", none, none, none, .obj []⟩ envDemo []).status = 400 := by
  decide

/-- C4 amended: a missing assistant name (no `assistant_name`, no
`assistant_id`) yields HTTP 400 with the ValidationError body and no
network calls for every supported action except `listAssistants` and
`store`; the `store` case responds 501 without checking the name (still
with no network call). -/
theorem C4_amended :
    ∀ (req : RequestBody) (env : Env) (cache : Cache),
      reqName req = none →
      ((req.action = "chat" ∨ req.action = "search" ∨
        req.action = "describeAssistant" ∨ req.action = "listFiles" ∨
        req.action = "deleteFile") →
        handler req env cache =
          ⟨400, vErrBody "assistant_name is required", cache, []⟩) ∧
      (req.action = "store" →
        (handler req env cache).status = 501 ∧ (handler req env cache).calls = []) := by
  intro req env cache hn
  constructor
  · intro ha
    rcases ha with ha | ha | ha | ha | ha <;> simp [handler, ha, hn]
  · intro ha
    constructor <;> simp [handler, ha]

/-- C4 amended witness: `deleteFile` without a name at a concrete input. -/
theorem C4_amended_witness :
    handler ⟨"deleteFile", none, none, none, .obj []⟩ envDemo [] =
      ⟨400, vErrBody "assistant_name is required", [], []⟩ :=
  (C4_amended ⟨"deleteFile", none, none, none, .obj []⟩ envDemo [] rfl).1
    (Or.inr (Or.inr (Or.inr (Or.inr rfl))))

/-- C5 counterexample: the chat scenario's actual response data also
carries `context_snippets: []`, so the result is not exactly the claimed
four-field object. -/
theorem C5_exact_result_counterexample :
    (handler chatReqDemo envDemo []).body ≠
      .obj [("success", .bool true), ("type", .str "chat"),
            ("data", .obj [("response", .str "hi"), ("citations", .arr []),
                           ("usage", .obj []), ("model", .undefined)])] ∧
    jsGet (jsGet (handler chatReqDemo envDemo []).body "data") "context_snippets" =
      .arr [] := by
  decide

/-- C5 amended: the chat scenario end to end — one discovery GET on the
cold cache, one POST to `base/chat/demo` whose payload carries the user
message, `model: "gpt-4o"` and `temperature: 0`, and a 200 envelope whose
data is the claimed object extended with `context_snippets: []`. -/
theorem C5_chat_scenario_amended :
    handler chatReqDemo envDemo [] =
      ⟨200,
       successBody "chat"
         (.obj [("response", .str "hi"), ("citations", .arr []),
                ("context_snippets", .arr []), ("usage", .obj []),
                ("model", .undefined)]),
       [("demo", ⟨"https://demo-host.pinecone.io/assistant", 300000⟩)],
       [⟨"GET", discUrl "demo", none⟩,
        ⟨"POST", "https://demo-host.pinecone.io/assistant/chat/demo",
         some (.obj [("messages",
                       .arr [.obj [("role", .str "user"), ("content", .str "hello")]]),
                     ("model", .str "gpt-4o"), ("temperature", .num 0),
                     ("stream", .bool false),
                     ("include_highlights", .bool false)])⟩]⟩ := by
  decide

theorem stopAuth_of_ne_slash {c : Char} (h : isStopAuth c = true) (hne : c ≠ '/') :
    isStopPath c = true := by
  have h' : (c = '/' ∨ c = '?') ∨ c = '#' := by simpa [isStopAuth] using h
  rcases h' with (h1 | h1) | h1
  · exact absurd h1 hne
  · simp [isStopPath, h1]
  · simp [isStopPath, h1]


theorem parseURLAux_wf :
    ∀ {sch rest : Chars} {u : URLM}, parseURLAux sch rest = some u →
      u.scheme = sch ∧
      sch ≠ [] ∧ (∀ c ∈ sch, c.isAlpha = true) ∧
      u.host ≠ [] ∧ (∀ c ∈ u.host, isStopAuth c = false) ∧
      u.pathname.head? = some '/' ∧ (∀ c ∈ u.pathname, isStopPath c = false) ∧
      (u.suffix = [] ∨ ∃ c rest', u.suffix = c :: rest' ∧ isStopPath c = true) := by
  intro sch rest u h
  rw [parseURLAux] at h
  by_cases h1 : sch = []
  · rw [if_pos h1] at h; exact absurd h (by simp)
  · rw [if_neg h1] at h
    by_cases h2 : sch.all (·.isAlpha) = true
    · rw [if_neg (not_not_intro h2)] at h
      have halpha : ∀ c ∈ sch, c.isAlpha = true := List.all_eq_true.mp h2
      have hhostok : ∀ c ∈ rest.takeWhile (fun c => !(isStopAuth c)),
          isStopAuth c = false := by
        intro c hc
        have := mem_takeWhile_pred hc
        simpa using this
      by_cases h3 : rest.takeWhile (fun c => !(isStopAuth c)) = []
      · rw [if_pos h3] at h; exact absurd h (by simp)
      · rw [if_neg h3] at h
        by_cases h4 : rest.dropWhile (fun c => !(isStopAuth c)) = []
        · rw [if_pos h4] at h
          have hu := Option.some.inj h
          subst hu
          refine ⟨rfl, h1, halpha, h3, hhostok, rfl, ?_, Or.inl rfl⟩
          intro c hc
          simp at hc
          simp [hc, isStopPath]
        · rw [if_neg h4] at h
          by_cases h5 : (rest.dropWhile (fun c => !(isStopAuth c))).head? = some '/'
          · rw [if_pos h5] at h
            have hu := Option.some.inj h
            subst hu
            refine ⟨rfl, h1, halpha, h3, hhostok, ?_, ?_, ?_⟩
            · rcases hrem : rest.dropWhile (fun c => !(isStopAuth c)) with _ | ⟨c0, rem'⟩
              · exact absurd hrem h4
              · rw [hrem] at h5
                simp only [List.head?_cons, Option.some.injEq] at h5
                subst h5
                simp [List.takeWhile_cons, isStopPath]
            · intro c hc
              have := mem_takeWhile_pred hc
              simpa using this
            · rcases hsfx : (rest.dropWhile (fun c => !(isStopAuth c))).dropWhile
                  (fun c => !(isStopPath c)) with _ | ⟨d, ds⟩
              · exact Or.inl rfl
              · refine Or.inr ⟨d, ds, rfl, ?_⟩
                have : (fun c => !(isStopPath c)) d = false :=
                  head?_dropWhile_not (by rw [hsfx]; rfl)
                simpa using this
          · rw [if_neg h5] at h
            have hu := Option.some.inj h
            subst hu
            refine ⟨rfl, h1, halpha, h3, hhostok, rfl, ?_, ?_⟩
            · intro c hc
              simp at hc
              simp [hc, isStopPath]
            · rcases hrem : rest.dropWhile (fun c => !(isStopAuth c)) with _ | ⟨c0, rem'⟩
              · exact absurd hrem h4
              · refine Or.inr ⟨c0, rem', rfl, ?_⟩
                have hd : (fun c => !(isStopAuth c)) c0 = false :=
                  head?_dropWhile_not (by rw [hrem]; rfl)
                have hne : c0 ≠ '/' := by
                  intro hc0
                  rw [hrem, hc0] at h5
                  exact h5 rfl
                exact stopAuth_of_ne_slash (by simpa using hd) hne
    · rw [if_pos (by simpa using h2)] at h
      exact absurd h (by simp)

theorem parseURLAux_serialize {sch host path sfx : Chars}
    (h1 : sch ≠ []) (h2 : ∀ c ∈ sch, c.isAlpha = true)
    (h3 : host ≠ []) (h4 : ∀ c ∈ host, isStopAuth c = false)
    (h5 : path.head? = some '/') (h6 : ∀ c ∈ path, isStopPath c = false)
    (h7 : sfx = [] ∨ ∃ c rest', sfx = c :: rest' ∧ isStopPath c = true) :
    parseURLAux sch (host ++ (path ++ sfx)) = some ⟨sch, host, path, sfx⟩ := by
  obtain ⟨p', rfl⟩ : ∃ p', path = '/' :: p' := by
    rcases path with _ | ⟨c, p'⟩
    · simp at h5
    · simp only [List.head?_cons, Option.some.injEq] at h5
      exact ⟨p', by rw [h5]⟩
  have hhost' : ∀ c ∈ host, (fun c => !(isStopAuth c)) c = true := by
    intro c hc; simp [h4 c hc]
  have htake : (host ++ ('/' :: p' ++ sfx)).takeWhile (fun c => !(isStopAuth c)) = host := by
    rw [takeWhile_append_all hhost', List.cons_append]
    rw [List.takeWhile_cons, if_neg (by simp [isStopAuth])]
    simp
  have hdrop : (host ++ ('/' :: p' ++ sfx)).dropWhile (fun c => !(isStopAuth c)) =
      '/' :: p' ++ sfx := by
    rw [dropWhile_append_all hhost', List.cons_append]
    rw [List.dropWhile_cons, if_neg (by simp [isStopAuth])]
  have hpath' : ∀ c ∈ '/' :: p', (fun c => !(isStopPath c)) c = true := by
    intro c hc; simp [h6 c hc]
  have htake2 : ('/' :: p' ++ sfx).takeWhile (fun c => !(isStopPath c)) = '/' :: p' := by
    rw [takeWhile_append_all hpath']
    rcases h7 with rfl | ⟨d, ds, rfl, hd⟩
    · simp
    · rw [List.takeWhile_cons, if_neg (by simp [hd])]
      simp
  have hdrop2 : ('/' :: p' ++ sfx).dropWhile (fun c => !(isStopPath c)) = sfx := by
    rw [dropWhile_append_all hpath']
    rcases h7 with rfl | ⟨d, ds, rfl, hd⟩
    · simp
    · rw [List.dropWhile_cons, if_neg (by simp [hd])]
  rw [parseURLAux, if_neg h1, if_neg (not_not_intro (List.all_eq_true.mpr h2))]
  rw [htake, hdrop]
  rw [if_neg h3, if_neg (by simp), if_pos (by simp)]
  rw [htake2, hdrop2]

theorem parseURL_serialize {sch host path sfx : Chars}
    (h1 : sch ≠ []) (h2 : ∀ c ∈ sch, c.isAlpha = true)
    (h3 : host ≠ []) (h4 : ∀ c ∈ host, isStopAuth c = false)
    (h5 : path.head? = some '/') (h6 : ∀ c ∈ path, isStopPath c = false)
    (h7 : sfx = [] ∨ ∃ c rest', sfx = c :: rest' ∧ isStopPath c = true) :
    parseURL (sch ++ (':' :: '/' :: '/' :: (host ++ (path ++ sfx)))) =
      some ⟨sch, host, path, sfx⟩ := by
  have hcolon : ∀ c ∈ sch, c ≠ ':' := by
    intro c hc he
    have := h2 c hc
    rw [he] at this
    exact absurd this (by decide)
  have hsplit := splitScheme_append (host ++ (path ++ sfx)) h1 hcolon
  have : parseURL (sch ++ (':' :: '/' :: '/' :: (host ++ (path ++ sfx)))) =
      parseURLAux sch (host ++ (path ++ sfx)) := by
    rw [parseURL, hsplit]
  rw [this]
  exact parseURLAux_serialize h1 h2 h3 h4 h5 h6 h7

theorem serializeURL_eq (sch host path sfx : Chars) :
    serializeURL ⟨sch, host, path, sfx⟩ =
      sch ++ (':' :: '/' :: '/' :: (host ++ (path ++ sfx))) := by
  simp [serializeURL, List.append_assoc]

theorem http_prefix_of_prefix {sch rest l : Chars}
    (hl : l = sch ++ ':' :: '/' :: '/' :: rest)
    (hpre : "http".toList <+: l) : "http".toList <+: sch := by
  subst hl
  obtain ⟨t, ht⟩ := hpre
  have hhttp : "http".toList = ['h', 't', 't', 'p'] := rfl
  rw [hhttp] at ht ⊢
  rcases sch with _ | ⟨a, sch⟩
  · simp only [List.nil_append, List.cons_append, List.cons.injEq] at ht
    exact absurd ht.1 (by decide)
  rcases sch with _ | ⟨b, sch⟩
  · simp only [List.nil_append, List.cons_append, List.cons.injEq] at ht
    exact absurd ht.2.1 (by decide)
  rcases sch with _ | ⟨c, sch⟩
  · simp only [List.nil_append, List.cons_append, List.cons.injEq] at ht
    exact absurd ht.2.2.1 (by decide)
  rcases sch with _ | ⟨d, sch⟩
  · simp only [List.nil_append, List.cons_append, List.cons.injEq] at ht
    exact absurd ht.2.2.2.1 (by decide)
  · simp only [List.cons_append, List.cons.injEq] at ht
    obtain ⟨rfl, rfl, rfl, rfl, -⟩ := ht
    exact ⟨sch, rfl⟩

theorem shape_of_strip {sch host NP sfx y : Chars}
    (hsne : sch ≠ []) (hpre : "http".toList <+: sch)
    (halpha : ∀ c ∈ sch, c.isAlpha = true)
    (hhne : host ≠ []) (hhok : ∀ c ∈ host, isStopAuth c = false)
    (hnph : NP.head? = some '/') (hnpok : ∀ c ∈ NP, isStopPath c = false)
    (hnpsuf : assistantSeg.isSuffixOf NP = true)
    (hnplast : NP.getLast? = some 't')
    (hsfx : sfx = [] ∨ ∃ c rest', sfx = c :: rest' ∧ isStopPath c = true)
    (hy : y = stripOneTrailingSlash (serializeURL ⟨sch, host, NP, sfx⟩)) :
    NormalizedShape y := by
  have hNPne : NP ≠ [] := by intro h0; rw [h0] at hnph; simp at hnph
  have hser : serializeURL ⟨sch, host, NP, sfx⟩ =
      sch ++ ':' :: '/' :: '/' :: host ++ NP ++ sfx := rfl
  rcases hsfx with rfl | ⟨d, ds, rfl, hd⟩
  · have hlast : (serializeURL ⟨sch, host, NP, []⟩).getLast? = some 't' := by
      rw [hser, List.append_nil, List.getLast?_append_of_ne_nil _ hNPne]
      exact hnplast
    have hstrip : stripOneTrailingSlash (serializeURL ⟨sch, host, NP, []⟩) =
        serializeURL ⟨sch, host, NP, []⟩ :=
      stripOne_of_ne (by simp [hlast])
    rw [hstrip] at hy
    exact ⟨sch, host, NP, [], by rw [hy, hser], hpre, hsne, halpha, hhne, hhok,
      hnph, hnpok, hnpsuf, hnplast, Or.inl rfl⟩
  · have hzlast : (serializeURL ⟨sch, host, NP, d :: ds⟩).getLast? =
        (d :: ds).getLast? := by
      rw [hser]
      exact List.getLast?_append_of_ne_nil _ (by simp)
    by_cases hslash : (d :: ds).getLast? = some '/'
    · have hstrip : stripOneTrailingSlash (serializeURL ⟨sch, host, NP, d :: ds⟩) =
          (sch ++ ':' :: '/' :: '/' :: host ++ NP) ++ (d :: ds).dropLast := by
        rw [stripOneTrailingSlash, if_pos (by rw [hzlast]; exact hslash), hser]
        exact List.dropLast_append_of_ne_nil _ (by simp)
      rw [hstrip] at hy
      rcases hdl : (d :: ds).dropLast with _ | ⟨e, es⟩
      · rw [hdl] at hy
        exact ⟨sch, host, NP, [], by rw [hy, List.append_nil], hpre, hsne, halpha,
          hhne, hhok, hnph, hnpok, hnpsuf, hnplast, Or.inl rfl⟩
      · have hdne : (d :: ds).dropLast ≠ [] := by rw [hdl]; simp
        have hheads := head?_dropLast hdne
        rw [hdl] at hheads
        simp only [List.head?_cons, Option.some.injEq] at hheads
        rw [hdl] at hy
        exact ⟨sch, host, NP, e :: es, hy, hpre, hsne, halpha, hhne, hhok,
          hnph, hnpok, hnpsuf, hnplast,
          Or.inr ⟨e, es, rfl, by rw [hheads]; exact hd⟩⟩
    · have hstrip : stripOneTrailingSlash (serializeURL ⟨sch, host, NP, d :: ds⟩) =
          serializeURL ⟨sch, host, NP, d :: ds⟩ :=
        stripOne_of_ne (by rw [hzlast]; exact hslash)
      rw [hstrip] at hy
      exact ⟨sch, host, NP, d :: ds, by rw [hy, hser], hpre, hsne, halpha, hhne,
        hhok, hnph, hnpok, hnpsuf, hnplast, Or.inr ⟨d, ds, rfl, hd⟩⟩

theorem shape_of_components {sch host pathname sfx y : Chars}
    (hsne : sch ≠ []) (hpre : "http".toList <+: sch)
    (halpha : ∀ c ∈ sch, c.isAlpha = true)
    (hhne : host ≠ []) (hhok : ∀ c ∈ host, isStopAuth c = false)
    (hph : pathname.head? = some '/') (hpok : ∀ c ∈ pathname, isStopPath c = false)
    (hsfx : sfx = [] ∨ ∃ c rest', sfx = c :: rest' ∧ isStopPath c = true)
    (hy : y = stripOneTrailingSlash (serializeURL
      ⟨sch, host,
       (if assistantSeg.isSuffixOf (dropTrailingSlashes pathname) then
          dropTrailingSlashes pathname
        else dropTrailingSlashes pathname ++ assistantSeg), sfx⟩)) :
    NormalizedShape y := by
  have hpref : dropTrailingSlashes pathname <+: pathname := dropTrailingSlashes_prefix _
  have hsegne : assistantSeg ≠ [] := by decide
  have hsegok : ∀ c ∈ assistantSeg, isStopPath c = false := by decide
  revert hy hpref
  generalize dropTrailingSlashes pathname = path
  intro hy hpref
  have hpathok : ∀ c ∈ path, isStopPath c = false := fun c hc => hpok c (hpref.subset hc)
  by_cases hsuf : assistantSeg.isSuffixOf path = true
  · rw [if_pos hsuf] at hy
    have hsfxp : assistantSeg <:+ path := List.isSuffixOf_iff_suffix.mp hsuf
    have hpne : path ≠ [] := by
      intro h0
      rw [h0] at hsfxp
      exact hsegne (List.suffix_nil.mp hsfxp)
    have hnph : path.head? = some '/' := by
      rw [← prefix_head? hpref hpne]
      exact hph
    have hnplast : path.getLast? = some 't' := by
      rw [suffix_getLast? hsfxp hsegne]
      decide
    exact shape_of_strip hsne hpre halpha hhne hhok hnph hpathok hsuf hnplast hsfx hy
  · rw [if_neg hsuf] at hy
    have hnph : (path ++ assistantSeg).head? = some '/' := by
      rcases path with _ | ⟨c0, p0⟩
      · decide
      · have hpe := prefix_head? hpref (by simp)
        rw [hpe] at hph
        simp only [List.head?_cons, Option.some.injEq] at hph
        simp [hph]
    have hnpok : ∀ c ∈ path ++ assistantSeg, isStopPath c = false := by
      intro c hc
      rcases List.mem_append.mp hc with hc | hc
      · exact hpathok c hc
      · exact hsegok c hc
    have hnpsuf : assistantSeg.isSuffixOf (path ++ assistantSeg) = true :=
      List.isSuffixOf_iff_suffix.mpr (List.suffix_append path assistantSeg)
    have hnplast : (path ++ assistantSeg).getLast? = some 't' := by
      rw [List.getLast?_append_of_ne_nil _ hsegne]
      decide
    exact shape_of_strip hsne hpre halpha hhne hhok hnph hnpok hnpsuf hnplast hsfx hy

theorem normBaseL_shape : ∀ {x y : Chars}, normBaseL x = some y → NormalizedShape y := by
  intro x y h
  rw [normBaseL] at h
  rcases hps : parseURL (if "http".toList.isPrefixOf x then x
      else "https://".toList ++ x) with _ | u
  · rw [hps] at h
    exact absurd h (by simp)
  · rw [hps] at h
    replace h : some (stripOneTrailingSlash (serializeURL
        ⟨u.scheme, u.host,
         (if assistantSeg.isSuffixOf (dropTrailingSlashes u.pathname) then
            dropTrailingSlashes u.pathname
          else dropTrailingSlashes u.pathname ++ assistantSeg), u.suffix⟩)) = some y := h
    replace h := (Option.some.inj h).symm
    rcases hss : splitScheme (if "http".toList.isPrefixOf x then x
        else "https://".toList ++ x) with _ | p
    · rw [parseURL, hss] at hps
      exact absurd hps (by simp)
    · obtain ⟨sch0, rest0⟩ := p
      have hps' : parseURLAux sch0 rest0 = some u := by
        rw [parseURL, hss] at hps
        exact hps
      obtain ⟨husch, hsne0, halpha0, hhne, hhok, hph, hpok, hsfx⟩ := parseURLAux_wf hps'
      have hsne : u.scheme ≠ [] := by rw [husch]; exact hsne0
      have halpha : ∀ c ∈ u.scheme, c.isAlpha = true := by rw [husch]; exact halpha0
      have hschpre : "http".toList <+: u.scheme := by
        rw [husch]
        by_cases hx : "http".toList.isPrefixOf x = true
        · rw [if_pos hx] at hss
          exact http_prefix_of_prefix (splitScheme_eq_append hss)
            (List.isPrefixOf_iff_prefix.mp hx)
        · rw [if_neg (by simpa using hx)] at hss
          have hkey : "https://".toList ++ x = "https".toList ++ ':' :: '/' :: '/' :: x :=
            rfl
          rw [hkey, splitScheme_append x (by decide) (by decide)] at hss
          simp only [Option.some.injEq, Prod.mk.injEq] at hss
          rw [← hss.1]
          decide
      exact shape_of_components hsne hschpre halpha hhne hhok hph hpok hsfx h

theorem normBaseL_of_shape {y : Chars} (hsh : NormalizedShape y)
    (hlast : ¬ y.getLast? = some '/') : normBaseL y = some y := by
  obtain ⟨sch, host, NP, sfx, hy, hpre, hsne, halpha, hhne, hhok, hnph, hnpok,
    hnpsuf, hnplast, hsfx⟩ := hsh
  have hregroup : sch ++ ':' :: '/' :: '/' :: host ++ NP ++ sfx =
      sch ++ (':' :: '/' :: '/' :: (host ++ (NP ++ sfx))) := by
    simp [List.append_assoc]
  have hypre : "http".toList.isPrefixOf y = true := by
    apply List.isPrefixOf_iff_prefix.mpr
    refine hpre.trans ?_
    rw [hy, hregroup]
    exact List.prefix_append sch _
  have hparse : parseURL y = some ⟨sch, host, NP, sfx⟩ := by
    rw [hy, hregroup]
    exact parseURL_serialize hsne halpha hhne hhok hnph hnpok hsfx
  have hdropNP : dropTrailingSlashes NP = NP :=
    dropTrailingSlashes_of_getLast hnplast (by decide)
  rw [normBaseL, if_pos hypre, hparse]
  show some (stripOneTrailingSlash (serializeURL
    ⟨sch, host,
     (if assistantSeg.isSuffixOf (dropTrailingSlashes NP) then dropTrailingSlashes NP
      else dropTrailingSlashes NP ++ assistantSeg), sfx⟩)) = some y
  rw [hdropNP, if_pos hnpsuf]
  have hser : serializeURL ⟨sch, host, NP, sfx⟩ =
      sch ++ ':' :: '/' :: '/' :: host ++ NP ++ sfx := rfl
  rw [hser, ← hy, stripOne_of_ne hlast]

/-- C8 counterexample: the trailing-slash strip is applied to the full
serialized URL, so it can consume a slash belonging to the query string;
on the concrete input `https://example.com/assistant?a//` the output
`...?a/` is mapped by a second application to `...?a`, refuting
unrestricted idempotence. -/
theorem C8_counterexample :
    normalizeAssistantBase "https://example.com/assistant?a//" =
      some "https://example.com/assistant?a/" ∧
    normalizeAssistantBase "https://example.com/assistant?a/" =
      some "https://example.com/assistant?a" ∧
    (normalizeAssistantBase "https://example.com/assistant?a//").bind
        normalizeAssistantBase ≠
      normalizeAssistantBase "https://example.com/assistant?a//" := by
  refine ⟨by decide, by decide, by decide⟩

/-- C8 amended: `normalizeAssistantBase` maps `example.com` to
`https://example.com/assistant`, maps `https://example.com/assistant/` to
that same value, and is idempotent on every output that does not itself
end in `/` (an output can end in `/` only when the input's query or
fragment ends in several slashes, in which case re-application strips one
more character). -/
theorem C8_amended :
    normalizeAssistantBase "example.com" = some "https://example.com/assistant" ∧
    normalizeAssistantBase "https://example.com/assistant/" =
      some "https://example.com/assistant" ∧
    ∀ x y : String, normalizeAssistantBase x = some y →
      ¬ y.toList.getLast? = some '/' →
      normalizeAssistantBase y = some y := by
  refine ⟨by decide, by decide, ?_⟩
  intro x y hxy hlast
  rw [normalizeAssistantBase] at hxy
  rcases hl : normBaseL x.toList with _ | ly
  · rw [hl] at hxy
    exact absurd hxy (by simp)
  · rw [hl] at hxy
    simp only [Option.map_some', Option.some.injEq] at hxy
    have hylist : y.toList = ly := by rw [← hxy]; rfl
    have hshape := normBaseL_shape hl
    have hidem := normBaseL_of_shape hshape (by rw [← hylist]; exact hlast)
    rw [normalizeAssistantBase, hylist, hidem]
    simp only [Option.map_some']
    rw [hxy]

/-- C8 amended witness: re-applying the function to the normalized output
of `example.com` leaves it unchanged. -/
theorem C8_amended_witness :
    normalizeAssistantBase "https://example.com/assistant" =
      some "https://example.com/assistant" :=
  C8_amended.2.2 "example.com" "https://example.com/assistant" (by decide) (by decide)
